import Mathlib

/-!
Verification of the nso-nsoevent repository's stream-subscription,
notification-classification and webhook-dispatch pipeline.

The Go sources are embedded shallowly: byte strings become `String`
(compared character-wise, which agrees with Go's byte-wise comparison
because UTF-8 is order-preserving), Go maps whose iteration order never
matters become association lists, and the fixed regular expressions of
the source (`reEventName`, `reDevice`, and the two patterns generated by
`webhook.filter`) become hand-compiled scanners that implement exactly
the RE2 leftmost-match semantics of those patterns.  Loops that are not
structurally recursive (`bytes.ReplaceAll`, `sort.Search`) take an
explicit fuel argument equal to the input length, which bounds their
iteration count, so that every definition reduces in the kernel.
-/

namespace Nsoevent

/-- The single-quote character (ASCII 39).  String literals in this file
avoid embedding the quote directly; device paths such as
`ncs:device[ncs:name='R0']` are assembled with `sq`. -/
def sq : Char := Char.ofNat 39

/-- One-character string holding `sq`. -/
def sqs : String := String.mk [sq]

/-- Boolean prefix test on character lists. -/
def prefixOfB : List Char → List Char → Bool
  | [], _ => true
  | _ :: _, [] => false
  | a :: as, b :: bs => if a = b then prefixOfB as bs else false

/-- Boolean substring test: does `pat` occur contiguously in the second
list?  Models Go's `strings.Contains` / `bytes.Contains` (an empty
pattern occurs everywhere). -/
def hasSub (pat : List Char) : List Char → Bool
  | [] => prefixOfB pat []
  | c :: rest => prefixOfB pat (c :: rest) || hasSub pat rest

/-- Strip `pat` from the front of a list, returning the rest when `pat`
is a prefix.  The basic step of every literal-prefix scanner below. -/
def dropLead : List Char → List Char → Option (List Char)
  | [], l => some l
  | _ :: _, [] => none
  | a :: as, b :: bs => if a = b then dropLead as bs else none

/-- The characters matched by RE2's Perl class `\s`:
tab, newline, form feed, carriage return and space. -/
def goWS (c : Char) : Bool :=
  c = Char.ofNat 9 || c = Char.ofNat 10 || c = Char.ofNat 12 ||
    c = Char.ofNat 13 || c = ' '

/-- From `src/util.go`, `fuzzyNameMatch`: a requested name matches a
target name when it equals it or is contained in it as a substring. -/
def fuzzyNameMatch (s target : String) : Bool :=
  if s = target || hasSub s.data target.data then true else false

/-- One pass of Go's `bytes.ReplaceAll source (p :: ps) ""`: scan left to
right, removing every non-overlapping occurrence of the (non-empty)
pattern `p :: ps`.  The fuel argument bounds the recursion; each step
consumes at least one character, so fuel equal to the input length (as
supplied by `replaceAllEmpty`) is always enough. -/
def replaceAllGo (p : Char) (ps : List Char) : Nat → List Char → List Char
  | 0, l => l
  | _ + 1, [] => []
  | fuel + 1, c :: rest =>
    if prefixOfB (p :: ps) (c :: rest) then replaceAllGo p ps fuel (rest.drop ps.length)
    else c :: replaceAllGo p ps fuel rest

/-- `bytes.ReplaceAll l (p :: ps) ""`. -/
def replaceAllEmpty (p : Char) (ps : List Char) (l : List Char) : List Char :=
  replaceAllGo p ps l.length l

/-- The tail (after the leading newline) of the long SSE marker removed
first by `xmlInnerCleanup`: `"data:"` followed by five spaces. -/
def sseLongTail : List Char := "data:     ".data

/-- The tail of the short SSE marker removed second: `"data:"` followed
by one space. -/
def sseShortTail : List Char := "data: ".data

/-- From `src/notification.go`, `xmlInnerCleanup`: removes the SSE
`data:` markers that `xml.Decode` leaves in the inner XML, first the
newline-plus-`data:`-plus-five-spaces form, then the
newline-plus-`data:`-plus-one-space form. -/
def xmlInnerCleanup (s : String) : String :=
  String.mk (replaceAllEmpty (Char.ofNat 10) sseShortTail
    (replaceAllEmpty (Char.ofNat 10) sseLongTail s.data))

/-! ## Event types and the default handler -/

/-- From `src/notification.go`, the `EventType` enumeration. -/
inductive EventType where
  | unknown
  | ncsCommitQueueProgress
  | netconfSessionStart
  | netconfConfigChange
deriving DecidableEq

/-- `EventType.String()`. -/
def EventType.toName : EventType → String
  | .unknown => "unknown"
  | .ncsCommitQueueProgress => "ncs-commit-queue-progress"
  | .netconfSessionStart => "netconf-session-start"
  | .netconfConfigChange => "netconf-config-change"

/-- A character admitted by the capture class `[^\s^>]` of `reEventName`:
anything but whitespace, the caret and the closing angle bracket. -/
def eventNameChar (c : Char) : Bool :=
  !goWS c && c ≠ '^' && c ≠ '>'

/-- Attempt to match `reEventName` = `</eventTime>[\s]*<([^\s^>]+)` at
the head of the list, returning the first (greedy) capture group.  The
whitespace star is deterministic here because `\s` and `<` are disjoint,
and the greedy capture is the maximal run of `eventNameChar`s. -/
def eventNameAt (l : List Char) : Option (List Char) :=
  match dropLead "</eventTime>".data l with
  | none => none
  | some rest =>
    match rest.dropWhile (fun c => goWS c) with
    | '<' :: rest2 =>
      let cap := rest2.takeWhile eventNameChar
      if cap.isEmpty then none else some cap
    | _ => none

/-- `reEventName.FindStringSubmatch`: the capture of the leftmost match. -/
def findEventName : List Char → Option (List Char)
  | [] => none
  | c :: rest =>
    match eventNameAt (c :: rest) with
    | some cap => some cap
    | none => findEventName rest

/-- From `src/notification.go`, `handlerDefault`, restricted to its
effect on the notification's event name: clean the inner payload, and if
`reEventName` matches, the event name becomes the first capture group;
otherwise it keeps the value `newNotification` installed
(`EVENT_UNKNOWN.String()`). -/
def handlerDefault (inner : String) : String :=
  match findEventName (xmlInnerCleanup inner).data with
  | some cap => String.mk cap
  | none => EventType.unknown.toName

/-! ## The NETCONF config-change handler's edit loop -/

/-- From `src/notification.go`, one `<edit>` record: a target path and
an operation. -/
structure NetconfConfigChangeEdit where
  target : String
  operation : String
deriving DecidableEq

/-- The literal part of `reDevice` = `ncs:device\[ncs:name='([^']+)'\]`
before the capture group. -/
def devicePat : List Char := ("ncs:device[ncs:name=" ++ sqs).data

/-- Attempt to match `reDevice` at the head of the list, returning the
capture: after the literal, a non-empty maximal run of non-quote
characters, which must be followed by a quote and a closing bracket. -/
def deviceAt (l : List Char) : Option String :=
  match dropLead devicePat l with
  | none => none
  | some rest =>
    let cap := rest.takeWhile (fun c => c ≠ sq)
    if cap.isEmpty then none
    else
      match rest.drop cap.length with
      | c1 :: c2 :: _ => if c1 = sq ∧ c2 = ']' then some (String.mk cap) else none
      | _ => none

/-- `reDevice.FindStringSubmatch`: the capture of the leftmost match. -/
def findDevice : List Char → Option String
  | [] => none
  | c :: rest =>
    match deviceAt (c :: rest) with
    | some dev => some dev
    | none => findDevice rest

/-- Character order by code point; agrees with Go's byte-wise string
order because UTF-8 is order-preserving. -/
def charLtB (a b : Char) : Bool := a.toNat < b.toNat

/-- Lexicographic order on character lists (`a ≤ b`). -/
def lexLe : List Char → List Char → Bool
  | [], _ => true
  | _ :: _, [] => false
  | a :: as, b :: bs => if a = b then lexLe as bs else charLtB a b

/-- Go's `x <= y` on strings. -/
def goStrLe (x y : String) : Bool := lexLe x.data y.data

/-- Go's `sort.Search` loop body with explicit fuel: binary search for
the smallest index in `[i, j)` at which `f` holds (`j` when none).  The
interval shrinks at every step, so fuel equal to the initial interval
width always suffices. -/
def searchLoopGo (f : Nat → Bool) : Nat → Nat → Nat → Nat
  | 0, i, _ => i
  | fuel + 1, i, j =>
    if i < j then
      let m := i + (j - i) / 2
      if f m then searchLoopGo f fuel i m else searchLoopGo f fuel (m + 1) j
    else i

/-- Go's `sort.SearchStrings a x`: the smallest index at which
`a[i] >= x`, by binary search. -/
def searchStrings (a : List String) (x : String) : Nat :=
  searchLoopGo (fun i => goStrLe x (a.getD i "")) a.length 0 a.length

/-- Insertion of one string into a sorted list. -/
def insertSorted (x : String) : List String → List String
  | [] => [x]
  | y :: ys => if goStrLe x y then x :: y :: ys else y :: insertSorted x ys

/-- Go's `sort.Strings`: sort ascending (modelled by insertion sort,
which produces the same sorted result). -/
def sortStrings (l : List String) : List String := l.foldr insertSorted []

/-- Append a value to the entry of `k` in an association list, creating
the entry when absent.  Models the content of the Go map append
`m[k] = append(m[k], e)`; the list order is insertion order of keys,
which no claim depends on (Go maps are unordered). -/
def mapAppend (m : List (String × List NetconfConfigChangeEdit)) (k : String)
    (e : NetconfConfigChangeEdit) : List (String × List NetconfConfigChangeEdit) :=
  match m with
  | [] => [(k, [e])]
  | (k2, es) :: rest =>
    if k2 = k then (k2, es ++ [e]) :: rest else (k2, es) :: mapAppend rest k e

/-- The fields of a `Notification` the config-change edit loop mutates:
the sorted device list, the device-to-edits map and the flat edit list. -/
structure ConfigChangeState where
  devices : List String
  deviceEdits : List (String × List NetconfConfigChangeEdit)
  edits : List NetconfConfigChangeEdit
deriving DecidableEq

/-- One iteration of the edit loop of `handlerNetconf`
(`src/notification.go` lines 269-291): append the edit to the flat
list; if `reDevice` extracts a device name from the target, append the
name to `Devices` only when `sort.SearchStrings` returns the list
length (the source's duplicate test), re-sort, and group the edit under
the name; otherwise group it under `"none"`. -/
def handlerNetconfStep (st : ConfigChangeState) (e : NetconfConfigChangeEdit) :
    ConfigChangeState :=
  let edits2 := st.edits ++ [e]
  match findDevice e.target.data with
  | some devName =>
    let devices2 :=
      if searchStrings st.devices devName = st.devices.length then
        sortStrings (st.devices ++ [devName])
      else st.devices
    { devices := devices2, deviceEdits := mapAppend st.deviceEdits devName e,
      edits := edits2 }
  | none =>
    { st with deviceEdits := mapAppend st.deviceEdits "none" e, edits := edits2 }

/-- The whole edit loop of `handlerNetconf`, starting from the fresh
notification state (`newNotification`: empty devices, empty map, no
edits), over the decoded `<edit>` records in document order.  The XML
decode that produces the record list is taken as given: the claims
about this handler concern the loop. -/
def handlerNetconfEdits (es : List NetconfConfigChangeEdit) : ConfigChangeState :=
  es.foldl handlerNetconfStep { devices := [], deviceEdits := [], edits := [] }

/-- Total number of edits held in the grouped map. -/
def sumSizes (m : List (String × List NetconfConfigChangeEdit)) : Nat :=
  match m with
  | [] => 0
  | (_, es) :: rest => es.length + sumSizes rest

/-! ## Filter engine and webhooks (embedded webhook source,
`src/README.md` lines 104-361) -/

/-- From the webhook source, the `Filter` structure: an optional
required event name and a list of node conditions; each node condition
is a YAML mapping read only at the keys `name` and `value`, modelled as
an association list. -/
structure Filter where
  event : String
  node : List (List (String × String))
deriving DecidableEq

/-- Go map lookup on the association-list model of a node condition. -/
def lookupS : List (String × String) → String → Option String
  | [], _ => none
  | (k, v) :: rest, key => if k = key then some v else lookupS rest key

/-- Characters RE2 treats as themselves when spliced into a pattern
outside any character class: letters, digits, hyphen, underscore and
colon - the characters ordinary XML tag names are built from.  The
source splices the condition name into
`regexp.MustCompile("<%s[\s>]+")`, so the scanners below implement the
compiled pattern exactly for names all of whose characters satisfy
this predicate; a name containing a regexp metacharacter (such as `.`)
makes the source's pattern match more liberally than a literal scan,
and the theorems that quantify over names assume this discipline. -/
def tagNameLiteralChar (c : Char) : Bool :=
  c.isAlpha || c.isDigit || c = '-' || c = '_' || c = ':'

/-- All characters of the tag name are regexp literals. -/
def tagNameLiteral (name : String) : Bool :=
  name.data.all tagNameLiteralChar

/-- Attempt to match the presence pattern `<name[\s>]+` at the head of
the list: the literal `<name` followed by at least one whitespace
character or `>`.  This is the compiled pattern's behaviour exactly
when `tagNameLiteral name` holds (see `tagNameLiteralChar`); the
theorems quantifying over names carry that hypothesis. -/
def presencePatAt (name : List Char) (l : List Char) : Bool :=
  match dropLead ('<' :: name) l with
  | none => false
  | some rest =>
    match rest with
    | c :: _ => goWS c || c = '>'
    | [] => false

/-- `FindStringSubmatch` for the presence pattern: does it match
anywhere in the data? -/
def presenceMatch (name : List Char) : List Char → Bool
  | [] => false
  | c :: rest => presencePatAt name (c :: rest) || presenceMatch name rest

/-- Attempt to match the value pattern `<name[^>]*>value</name>` at the
head of the list.  After the literal `<name`, the greedy `[^>]*` must
stop exactly at the first `>` (it cannot cross one), then the value and
the closing tag follow.  The source splices both `name` and `value`
into the compiled regexp, `value` deliberately so (it is documented as
a sub-pattern); this embedding interprets both literally, so it
coincides with the source exactly when `tagNameLiteral` holds of the
name and every character of the value is a regexp literal.  No theorem
in this development exercises the value branch: every judged statement
either uses presence-only conditions, nameless conditions, an empty
node list, or is decided by the event gate before the node loop. -/
def valuePatAt (name value : List Char) (l : List Char) : Bool :=
  match dropLead ('<' :: name) l with
  | none => false
  | some rest =>
    let mid := rest.takeWhile (fun c => c ≠ '>')
    match rest.drop mid.length with
    | _ :: rest2 =>
      match dropLead value rest2 with
      | none => false
      | some rest3 => prefixOfB ('<' :: '/' :: (name ++ ['>'])) rest3
    | [] => false

/-- `FindStringSubmatch` for the value pattern. -/
def valueMatch (name value : List Char) : List Char → Bool
  | [] => false
  | c :: rest => valuePatAt name value (c :: rest) || valueMatch name value rest

/-- The node-condition loop of `webhook.filter`: a condition with both
`name` and `value` requires the value pattern to match the data, a
condition with only `name` requires the presence pattern, and a
condition without `name` is skipped; the first failing condition
returns false. -/
def filterNodes (data : String) : List (List (String × String)) → Bool
  | [] => true
  | entry :: rest =>
    match lookupS entry "name", lookupS entry "value" with
    | some name, some value =>
      if valueMatch name.data value.data data.data then filterNodes data rest else false
    | some name, none =>
      if presenceMatch name.data data.data then filterNodes data rest else false
    | none, _ => filterNodes data rest

/-- `webhook.filter`: a nil filter matches everything; a non-empty
event constraint that differs from the notification's event name fails
fast; otherwise every node condition must match the data bytes the
caller passes. -/
def filterRun (f : Option Filter) (eventName : String) (data : String) : Bool :=
  match f with
  | none => true
  | some flt =>
    if flt.event ≠ "" ∧ flt.event ≠ eventName then false
    else filterNodes data flt.node

/-- From the webhook source, the `webhook` structure, restricted to the
fields the fire decision and validation read.  `streamNames` models the
`StreamList` back-reference by stream name. -/
structure webhook where
  stream : String
  disable : Bool
  url : String
  token : String
  filter : Option Filter
  streamNames : List String
deriving DecidableEq

/-- `webhook.shouldFire`: fire when the hook is enabled and its filter
matches.  `eventName` is the notification's `EventName`, the only
notification field the filter reads. -/
def shouldFire (w : webhook) (eventName : String) (data : String) : Bool :=
  !w.disable && filterRun w.filter eventName data

/-- `StreamList.findStreamsByName`, by name: the advertised stream names
the target fuzzily matches. -/
def findStreamsByNameModel (streams : List String) (target : String) : List String :=
  streams.filter (fun sname => fuzzyNameMatch target sname)

/-- Does any node condition of the list carry a `value` that fails to
compile as a regexp?  `regexOk` stands for Go's `regexp.Compile`
succeeding (an external library predicate). -/
def anyBadValue (regexOk : String → Bool) (nodes : List (List (String × String))) : Bool :=
  nodes.any (fun entry =>
    match lookupS entry "value" with
    | some v => !regexOk v
    | none => false)

/-- `webhooks.validate` for one hook.  `parseOk` stands for Go's
`url.Parse` succeeding (an external library predicate).  A hook whose
URL fails to parse, or whose filter holds a value that fails to compile,
is disabled and its stream list cleared; afterwards the stream list is
unconditionally recomputed by fuzzy name match (the source does this for
disabled hooks too). -/
def validateHook (parseOk : String → Bool) (regexOk : String → Bool)
    (streams : List String) (h : webhook) : webhook :=
  let h1 := if parseOk h.url then h else { h with disable := true, streamNames := [] }
  let h2 :=
    match h1.filter with
    | none => h1
    | some flt =>
      if anyBadValue regexOk flt.node then { h1 with disable := true, streamNames := [] }
      else h1
  { h2 with streamNames := findStreamsByNameModel streams h2.stream }

/-! ## The enriched outbound payload (`src/notification.go`,
`enrichData` and `jsonMarshal`) -/

/-- The fields of a classified notification the enrichment reads. -/
structure NotificationModel where
  eventName : String
  user : String
  userHost : String
  datastore : String
  devices : List String
  deviceEdits : List (String × List NetconfConfigChangeEdit)
  inner : String
deriving DecidableEq

/-- The notification the default handler leaves behind for an inner
payload: only the event name is classified. -/
def defaultNotification (inner : String) : NotificationModel :=
  { eventName := handlerDefault inner, user := "", userHost := "", datastore := "",
    devices := [], deviceEdits := [], inner := inner }

/-- One hexadecimal digit, lower case, as `encoding/json` prints it. -/
def hexDigit (n : Nat) : Char :=
  if n < 10 then Char.ofNat (48 + n) else Char.ofNat (87 + n)

/-- `encoding/json` string escaping with `SetEscapeHTML(false)`: quote
and backslash are escaped, newline, carriage return and tab use their
short forms, other control characters use `\u00XX`, and everything else
- including angle brackets and ampersands - passes through. -/
def jsonEscapeChar (c : Char) : List Char :=
  if c = '"' then ['\\', '"']
  else if c = '\\' then ['\\', '\\']
  else if c = Char.ofNat 10 then ['\\', 'n']
  else if c = Char.ofNat 13 then ['\\', 'r']
  else if c = Char.ofNat 9 then ['\\', 't']
  else if c.toNat < 32 then ['\\', 'u', '0', '0', hexDigit (c.toNat / 16), hexDigit (c.toNat % 16)]
  else [c]

/-- A JSON string literal for `s`. -/
def jsonStr (s : String) : String :=
  String.mk ('"' :: (s.data.flatMap jsonEscapeChar ++ ['"']))

/-- A JSON member `"k":"v"`. -/
def jsonField (k v : String) : String := jsonStr k ++ ":" ++ jsonStr v

/-- A JSON array from already-serialized elements. -/
def jsonArr (elems : List String) : String :=
  "[" ++ String.intercalate "," elems ++ "]"

/-- One edit as `encoding/json` serializes `NetconfConfigChangeEdit`
(field order `target`, `operation`). -/
def jsonEdit (e : NetconfConfigChangeEdit) : String :=
  "\x7b" ++ jsonField "target" e.target ++ "," ++ jsonField "operation" e.operation ++ "\x7d"

/-- The grouped-edits map as `encoding/json` serializes a Go map: keys
in sorted order. -/
def jsonEditsObj (m : List (String × List NetconfConfigChangeEdit)) : String :=
  "\x7b" ++
    String.intercalate ","
      ((sortStrings (m.map Prod.fst)).map (fun k =>
        jsonStr k ++ ":" ++ jsonArr (((m.lookup k).getD []).map jsonEdit))) ++
  "\x7d"

/-- The `event` field of the enriched payload: the cleaned inner
payload wrapped in `<nsoevent>` tags (`enrichData` receives
`xmlInnerCleanup(n.Inner)` at its only call site). -/
def enrichEventField (source : String) : String :=
  "<nsoevent>" ++ source ++ "</nsoevent>"

/-- `enrichData` followed by `jsonMarshal`: the outbound JSON document,
with the struct's field order, `omitempty` on user, host, datastore,
devices and edits, no HTML escaping, and the trailing newline
`json.Encoder.Encode` appends. -/
def enrichJSON (source stream eventname user host datastore : String)
    (devices : List String) (edits : List (String × List NetconfConfigChangeEdit))
    (event : String) : String :=
  "\x7b" ++ jsonField "source" source ++ "," ++ jsonField "stream" stream ++
    "," ++ jsonField "eventname" eventname ++
    (if user = "" then "" else "," ++ jsonField "user" user) ++
    (if host = "" then "" else "," ++ jsonField "host" host) ++
    (if datastore = "" then "" else "," ++ jsonField "datastore" datastore) ++
    (if devices.isEmpty then "" else "," ++ jsonStr "devices" ++ ":" ++ jsonArr (devices.map jsonStr)) ++
    (if edits.isEmpty then "" else "," ++ jsonStr "edits" ++ ":" ++ jsonEditsObj edits) ++
    "," ++ jsonField "event" event ++ "\x7d\n"

/-- The data bytes `startSubscriber` hands to `shouldFire` and `fire`
for a notification: the enriched JSON document (the local variable
`innerClean` of `src/util.go` line 352). -/
def webhookData (srcHost streamName : String) (n : NotificationModel) : String :=
  enrichJSON srcHost streamName n.eventName n.user n.userHost n.datastore
    n.devices n.deviceEdits (enrichEventField (xmlInnerCleanup n.inner))

/-- Strip the outer `<nsoevent>`/`</nsoevent>` wrapper from a string
that carries it (the inverse step of `enrichEventField` named by the
round-trip property). -/
def stripNsoevent (s : String) : String :=
  if prefixOfB "<nsoevent>".data s.data &&
      prefixOfB "</nsoevent>".data.reverse s.data.reverse then
    String.mk ((s.data.drop 10).take (s.data.length - 21))
  else s

/-! ## Subscription manager (`src/util.go`, `startSubscribers`) -/

/-- An advertised stream as the subscriber-set construction reads it:
its name and the encoding of each of its access entries. -/
inductive StreamEncodingType where
  | unknown
  | json
  | xml
deriving DecidableEq

/-- An advertised stream (name plus access encodings). -/
structure StreamModel where
  name : String
  access : List StreamEncodingType
deriving DecidableEq

/-- The subscribers one requested name contributes for one stream's
access list: one per XML-encoded access entry. -/
def subsFromAccess (r sname : String) : List StreamEncodingType → List (String × String)
  | [] => []
  | e :: rest =>
    (if e = StreamEncodingType.xml then [(r, sname)] else []) ++ subsFromAccess r sname rest

/-- The inner loop of `startSubscribers`: for one requested name, every
fuzzily matching advertised stream contributes its XML accesses. -/
def subsForRequest (r : String) : List StreamModel → List (String × String)
  | [] => []
  | s :: rest =>
    (if fuzzyNameMatch r s.name then subsFromAccess r s.name s.access else []) ++
      subsForRequest r rest

/-- The outer loop of `startSubscribers`: the full subscriber list, in
request order. -/
def collectSubs (streams : List StreamModel) : List String → List (String × String)
  | [] => []
  | r :: rs => subsForRequest r streams ++ collectSubs streams rs

/-- The requested names after the empty-request default: an empty
request subscribes to every advertised stream. -/
def effectiveNames (requested : List String) (streams : List StreamModel) : List String :=
  if requested.isEmpty then streams.map StreamModel.name else requested

/-- The error decision of `startSubscribers`: it returns the
`stream(s) not found` error exactly when the requested-name count
exceeds the subscriber count (`src/util.go` line 231). -/
def startSubscribersFails (requested : List String) (streams : List StreamModel) : Bool :=
  let names := effectiveNames requested streams
  decide (names.length > (collectSubs streams names).length)

/-- The number of XML-encoded entries in an access list. -/
def countXML : List StreamEncodingType → Nat
  | [] => 0
  | e :: rest => (if e = StreamEncodingType.xml then 1 else 0) + countXML rest

/-- Specification-side count: the number of (stream, XML access) pairs
one requested name fuzzily matches. -/
def matchCountXML (r : String) : List StreamModel → Nat
  | [] => 0
  | s :: rest => (if fuzzyNameMatch r s.name then countXML s.access else 0) + matchCountXML r rest

/-- Does a requested name fuzzily match at least one advertised stream
(by name, regardless of encodings)?  The matching notion of claim C2. -/
def nameMatchesSome (r : String) (streams : List StreamModel) : Bool :=
  streams.any (fun s => fuzzyNameMatch r s.name)

/-! ## Stream subscriber dispatch loop (`src/util.go`,
`startSubscriber`) -/

/-- What the dispatch loop's `select` observes at one iteration: the
broadcast cancellation, the notification channel reporting closed, or a
received notification. -/
inductive DispatchStep where
  | cancelled
  | chanClosed
  | received
deriving DecidableEq

/-- The errors `startSubscriber` can return. -/
inductive SubErr where
  | openFailed
  | channelClosed
deriving DecidableEq

/-- The dispatch loop of `startSubscriber` over an observation trace:
cancellation returns the running count with no error, a closed channel
returns it with the channel error, and a received notification
increments the count (only when a handler is registered) and loops.
`none` means the trace ended with the loop still blocked. -/
def dispatchLoop (hasHandler : Bool) (count : Nat) :
    List DispatchStep → Option (Nat × Option SubErr)
  | [] => none
  | DispatchStep.cancelled :: _ => some (count, none)
  | DispatchStep.chanClosed :: _ => some (count, some SubErr.channelClosed)
  | DispatchStep.received :: rest =>
    dispatchLoop hasHandler (if hasHandler then count + 1 else count) rest

/-- `startSubscriber`: a failed stream open returns immediately with
zero events and an error; otherwise the dispatch loop runs from count
zero.  Every subscriber the manager constructs has a handler
(`handlerDefault` at construction, possibly overridden), which
`hasHandler` records. -/
def runSubscriber (openOk hasHandler : Bool) (steps : List DispatchStep) :
    Option (Nat × Option SubErr) :=
  if openOk then dispatchLoop hasHandler 0 steps
  else some (0, some SubErr.openFailed)

/-! ## Specification-side predicates and concrete inputs -/

/-- Total (stream, XML access) match count over a list of requested
names: the number of subscribers the construction creates. -/
def totalMatchCount (names : List String) (streams : List StreamModel) : Nat :=
  match names with
  | [] => 0
  | r :: rs => matchCountXML r streams + totalMatchCount rs streams

/-- The substring condition of the presence-filter property: the
document contains `<` followed by the tag name followed by a whitespace
character or `>`. -/
def OpenTagIn (doc : String) (tag : String) : Prop :=
  ∃ pre c post, doc.data = pre ++ ('<' :: tag.data) ++ c :: post ∧
    (goWS c = true ∨ c = '>')

/-- A config-change edit target embedding device `R0`
(`/ncs:devices/ncs:device[ncs:name='R0']/ncs:config/ios:banner/ios:motd`). -/
def editTargetR0 : String :=
  "/ncs:devices/ncs:device[ncs:name=" ++ sqs ++ "R0" ++ sqs ++ "]/ncs:config/ios:banner/ios:motd"

/-- The same target for device `R1`. -/
def editTargetR1 : String :=
  "/ncs:devices/ncs:device[ncs:name=" ++ sqs ++ "R1" ++ sqs ++ "]/ncs:config/ios:banner/ios:motd"

/-- A replace edit on `R0`. -/
def editR0 : NetconfConfigChangeEdit := { target := editTargetR0, operation := "replace" }

/-- A replace edit on `R1`. -/
def editR1 : NetconfConfigChangeEdit := { target := editTargetR1, operation := "replace" }

/-- An inner payload holding only a timestamp and one self-closed
event node: the Scenario A input. -/
def scenarioAInner : String := "<eventTime>2021-01-01T00:00:00Z</eventTime><custom-event/>"

/-- An inner payload carrying an SSE `data:` marker, as `xml.Decode`
leaves them. -/
def sseInner : String := "<x>\ndata: y</x>"

/-- The advertised streams of the C2 counterexample: two streams whose
names both contain `A`, each with one XML access. -/
def twoStreams : List StreamModel :=
  [{ name := "AB", access := [StreamEncodingType.xml] },
   { name := "ABC", access := [StreamEncodingType.xml] }]

/-- The data document `startSubscriber` hands the filter for the
Scenario-A-like notification on stream `NETCONF`. -/
def c4doc : String := webhookData "1.2.3.4:8080" "NETCONF" (defaultNotification scenarioAInner)

/-- A webhook whose filter has one presence-only node condition on tag
`nsoevent`. -/
def nsoeventHook : webhook :=
  { stream := "NETCONF", disable := false, url := "http://h/hook", token := "t",
    filter := some { event := "", node := [[("name", "nsoevent")]] },
    streamNames := ["NETCONF"] }

/-- A webhook filtering on event name `netconf-config-change` (the
Scenario C webhook). -/
def configChangeEventHook : webhook :=
  { stream := "NETCONF", disable := false, url := "http://h/hook", token := "t",
    filter := some { event := "netconf-config-change", node := [] },
    streamNames := ["NETCONF"] }

/-! # Theorems -/

/-- Appending one edit to a group raises the grouped total by one. -/
theorem sumSizes_mapAppend (m : List (String × List NetconfConfigChangeEdit))
    (k : String) (e : NetconfConfigChangeEdit) :
    sumSizes (mapAppend m k e) = sumSizes m + 1 := by
  induction m with
  | nil => simp [mapAppend, sumSizes]
  | cons hd tl ih =>
    obtain ⟨k2, es⟩ := hd
    by_cases h : k2 = k
    · simp only [mapAppend, if_pos h, sumSizes, List.length_append, List.length_singleton]
      omega
    · simp only [mapAppend, if_neg h, sumSizes, ih]
      omega

/-- One iteration of the edit loop appends the edit to the flat list
and adds it to exactly one group. -/
theorem handlerNetconfStep_effect (st : ConfigChangeState) (e : NetconfConfigChangeEdit) :
    (handlerNetconfStep st e).edits = st.edits ++ [e] ∧
    sumSizes (handlerNetconfStep st e).deviceEdits = sumSizes st.deviceEdits + 1 := by
  cases hf : findDevice e.target.data <;>
    simp [handlerNetconfStep, hf, sumSizes_mapAppend]

/-- The edit loop, from any state, appends its input to the flat list
and grows the grouped total by the input length. -/
theorem handlerNetconf_foldl_invariant (es : List NetconfConfigChangeEdit) :
    ∀ st : ConfigChangeState,
      (es.foldl handlerNetconfStep st).edits = st.edits ++ es ∧
      sumSizes (es.foldl handlerNetconfStep st).deviceEdits =
        sumSizes st.deviceEdits + es.length := by
  induction es with
  | nil => intro st; simp
  | cons e tl ih =>
    intro st
    have hs := handlerNetconfStep_effect st e
    have ht := ih (handlerNetconfStep st e)
    refine ⟨?_, ?_⟩
    · rw [List.foldl_cons, ht.1, hs.1, List.append_assoc]
      rfl
    · rw [List.foldl_cons, ht.2, hs.2, List.length_cons]
      omega

/-- Claim C5: for every configuration-change notification, the flat
Edit list and the grouped resource-to-Edits mapping are consistent -
the flat list holds exactly the decoded edits in order, and its length
equals the sum of the group sizes, every edit having been appended to
exactly one group (its extracted device, or the `none` group). -/
theorem config_change_edit_groups_consistent (es : List NetconfConfigChangeEdit) :
    (handlerNetconfEdits es).edits = es ∧
    (handlerNetconfEdits es).edits.length = sumSizes (handlerNetconfEdits es).deviceEdits := by
  have h := handlerNetconf_foldl_invariant es
    { devices := [], deviceEdits := [], edits := [] }
  unfold handlerNetconfEdits
  refine ⟨?_, ?_⟩
  · rw [h.1]; rfl
  · rw [h.1, h.2]; simp [sumSizes]

/-- Receiving one notification advances the dispatch loop's count by
one; receiving `k` advances it by `k`. -/
theorem dispatchLoop_replicate (k : Nat) (c : Nat) (rest : List DispatchStep) :
    dispatchLoop true c (List.replicate k DispatchStep.received ++ rest) =
      dispatchLoop true (c + k) rest := by
  induction k generalizing c with
  | zero => simp
  | succ n ih =>
    have harith : c + 1 + n = c + (n + 1) := by omega
    have hstep : dispatchLoop true c
        (List.replicate (n + 1) DispatchStep.received ++ rest) =
        dispatchLoop true (c + 1) (List.replicate n DispatchStep.received ++ rest) := rfl
    rw [hstep, ih (c + 1), harith]

/-- Claim C8: the subscriber run returns `(0, error)` when opening the
streaming connection fails; after `k` received notifications it returns
`(k, nil)` on cancellation and `(k, channel-closed error)` when the
notification queue closes. -/
theorem subscriber_run_returns (h : Bool) (steps : List DispatchStep) (k : Nat)
    (rest : List DispatchStep) :
    runSubscriber false h steps = some (0, some SubErr.openFailed) ∧
    runSubscriber true true
      (List.replicate k DispatchStep.received ++ DispatchStep.cancelled :: rest) =
      some (k, none) ∧
    runSubscriber true true
      (List.replicate k DispatchStep.received ++ DispatchStep.chanClosed :: rest) =
      some (k, some SubErr.channelClosed) := by
  refine ⟨rfl, ?_, ?_⟩ <;>
    simp [runSubscriber, dispatchLoop_replicate, dispatchLoop]

/-- Claim C1, behaviour of the code at the failing input: with the two
edits decoded in the order `R1`, `R0`, the flat affected-device list
ends up as `["R1"]` - `R0` is dropped, because `sort.SearchStrings`
returns an interior insertion index and the source only appends when
the index equals the list length - while the grouped mapping still
gains both device keys; the reverse order yields `["R0", "R1"]`. -/
theorem config_change_devices_order_dependent :
    (handlerNetconfEdits [editR1, editR0]).devices = ["R1"] ∧
    (handlerNetconfEdits [editR1, editR0]).deviceEdits.map Prod.fst = ["R1", "R0"] ∧
    (handlerNetconfEdits [editR0, editR1]).devices = ["R0", "R1"] := by
  decide

/-- Claim C3, behaviour of the code at the Scenario A input: the
capture class of `reEventName` excludes only whitespace, `^` and `>`,
so on the self-closed node `<custom-event/>` the default handler sets
the event name to `custom-event/` - with a trailing slash - and not to
`custom-event`. -/
theorem default_handler_trailing_slash :
    handlerDefault scenarioAInner = "custom-event/" ∧
    handlerDefault scenarioAInner ≠ "custom-event" := by
  decide

/-- One access list contributes one subscriber per XML entry. -/
theorem length_subsFromAccess (r sname : String) (l : List StreamEncodingType) :
    (subsFromAccess r sname l).length = countXML l := by
  induction l with
  | nil => rfl
  | cons e rest ih =>
    by_cases h : e = StreamEncodingType.xml <;>
      simp [subsFromAccess, countXML, h, ih] <;> omega

/-- One requested name contributes one subscriber per matching XML
access. -/
theorem length_subsForRequest (r : String) (streams : List StreamModel) :
    (subsForRequest r streams).length = matchCountXML r streams := by
  induction streams with
  | nil => rfl
  | cons s rest ih =>
    by_cases h : fuzzyNameMatch r s.name = true <;>
      simp [subsForRequest, matchCountXML, h, ih, length_subsFromAccess]

/-- The constructed subscriber list has one entry per matched
(stream, XML access) pair. -/
theorem length_collectSubs (streams : List StreamModel) (names : List String) :
    (collectSubs streams names).length = totalMatchCount names streams := by
  induction names with
  | nil => rfl
  | cons r rs ih => simp [collectSubs, totalMatchCount, length_subsForRequest, ih]

/-- When every requested name has at least one XML match, the matches
are at least as many as the names. -/
theorem totalMatchCount_lower (names : List String) (streams : List StreamModel)
    (h : ∀ r ∈ names, 1 ≤ matchCountXML r streams) :
    names.length ≤ totalMatchCount names streams := by
  induction names with
  | nil => simp [totalMatchCount]
  | cons r rs ih =>
    have h1 := h r (List.mem_cons_self r rs)
    have h2 : ∀ x ∈ rs, 1 ≤ matchCountXML x streams :=
      fun x hx => h x (List.mem_cons_of_mem _ hx)
    have h3 := ih h2
    simp only [totalMatchCount, List.length_cons]
    omega

/-- Claim C2 is false as stated: requested names `A` and `Z` against
two advertised XML streams `AB` and `ABC` make the construction
succeed - `A` fuzzily matches both streams, so the subscriber count
reaches the requested-name count - even though `Z` fuzzily matches
zero advertised streams. -/
theorem streams_not_found_counterexample :
    startSubscribersFails ["A", "Z"] twoStreams = false ∧
    nameMatchesSome "Z" twoStreams = false := by
  decide

/-- Claim C2 (amended): the construction fails with the streams-not-
found error iff the requested names outnumber the subscribers created,
one per (requested name, fuzzily matching stream, XML access) triple;
in particular it succeeds whenever every requested name has at least
one XML-encoded fuzzy match. -/
theorem streams_not_found_condition (requested : List String) (streams : List StreamModel) :
    (startSubscribersFails requested streams = true ↔
      totalMatchCount (effectiveNames requested streams) streams <
        (effectiveNames requested streams).length) ∧
    ((∀ r ∈ effectiveNames requested streams, 1 ≤ matchCountXML r streams) →
      startSubscribersFails requested streams = false) := by
  refine ⟨?_, ?_⟩
  · simp [startSubscribersFails, length_collectSubs]
  · intro h
    have hle := totalMatchCount_lower _ _ h
    simp only [startSubscribersFails, length_collectSubs, gt_iff_lt,
      decide_eq_false_iff_not, not_lt]
    exact hle

/-- Witness for the amended C2 theorem: one exactly-matching XML
stream means no error. -/
theorem streams_not_found_condition_witness :
    startSubscribersFails ["NETCONF"]
      [{ name := "NETCONF", access := [StreamEncodingType.xml] }] = false :=
  (streams_not_found_condition ["NETCONF"]
    [{ name := "NETCONF", access := [StreamEncodingType.xml] }]).2 (by decide)

/-- A disabled webhook never fires. -/
theorem shouldFire_of_disabled (w : webhook) (ev data : String) (hd : w.disable = true) :
    shouldFire w ev data = false := by
  simp [shouldFire, hd]

/-- Validation disables a webhook whose URL fails to parse. -/
theorem validateHook_disable_of_parse (parseOk regexOk : String → Bool)
    (streams : List String) (h : webhook) (hp : parseOk h.url = false) :
    (validateHook parseOk regexOk streams h).disable = true := by
  simp only [validateHook, hp]
  cases hf : h.filter with
  | none => simp [hf]
  | some flt =>
    by_cases hb : anyBadValue regexOk flt.node = true <;> simp [hf, hb]

/-- Claim C9: a webhook whose target URL fails to parse, or whose
filter holds a value that fails to compile, is marked disabled by
validation, and a disabled webhook's fire decision is false for every
notification and payload. -/
theorem invalid_webhook_disabled (parseOk regexOk : String → Bool)
    (streams : List String) (h : webhook) (ev data : String) :
    (parseOk h.url = false → (validateHook parseOk regexOk streams h).disable = true) ∧
    ((∃ flt, h.filter = some flt ∧ anyBadValue regexOk flt.node = true) →
      (validateHook parseOk regexOk streams h).disable = true) ∧
    (h.disable = true → shouldFire h ev data = false) ∧
    (parseOk h.url = false →
      shouldFire (validateHook parseOk regexOk streams h) ev data = false) := by
  refine ⟨fun hp => validateHook_disable_of_parse parseOk regexOk streams h hp, ?_, ?_, ?_⟩
  · rintro ⟨flt, hf, hb⟩
    by_cases hp : parseOk h.url = true <;> simp [validateHook, hp, hf, hb]
  · exact fun hd => shouldFire_of_disabled h ev data hd
  · intro hp
    exact shouldFire_of_disabled _ ev data
      (validateHook_disable_of_parse parseOk regexOk streams h hp)

/-- Witness for C9: a hook whose URL parse fails is excluded from the
fire decision after validation. -/
theorem invalid_webhook_disabled_witness :
    shouldFire (validateHook (fun _ => false) (fun _ => true) ["NETCONF"] nsoeventHook)
      "netconf-config-change" "data" = false :=
  (invalid_webhook_disabled (fun _ => false) (fun _ => true) ["NETCONF"] nsoeventHook
    "netconf-config-change" "data").2.2.2 rfl

/-- A run of node conditions all lacking a `name` key always passes. -/
theorem filterNodes_all_nameless (data : String) :
    ∀ nodes : List (List (String × String)),
      (∀ entry ∈ nodes, lookupS entry "name" = none) → filterNodes data nodes = true
  | [], _ => rfl
  | entry :: rest, hn => by
    have h1 := hn entry (List.mem_cons_self entry rest)
    have h2 : ∀ x ∈ rest, lookupS x "name" = none :=
      fun x hx => hn x (List.mem_cons_of_mem _ hx)
    simp [filterNodes, h1, filterNodes_all_nameless data rest h2]

/-- Claim C10: a filter node condition without a `name` key is skipped
entirely - it can never fail the match - so a filter whose node
conditions all lack a name passes every notification whose event-name
constraint is satisfied. -/
theorem nameless_node_conditions_skipped (e ev data : String)
    (entry : List (String × String)) (rest nodes : List (List (String × String)))
    (hentry : lookupS entry "name" = none)
    (hn : ∀ x ∈ nodes, lookupS x "name" = none) :
    filterNodes data (entry :: rest) = filterNodes data rest ∧
    ((e = "" ∨ e = ev) → filterRun (some { event := e, node := nodes }) ev data = true) := by
  refine ⟨by simp [filterNodes, hentry], fun he => ?_⟩
  have hfn := filterNodes_all_nameless data nodes hn
  rcases he with h | h <;> simp [filterRun, h, hfn]

/-- Witness for C10: a value-only condition and an empty condition are
both skipped. -/
theorem nameless_node_conditions_skipped_witness :
    filterNodes "payload" ([("value", "running")] :: [[]]) = filterNodes "payload" [[]] ∧
    ((("" : String) = "" ∨ ("" : String) = "ev") →
      filterRun (some { event := "", node := [[("value", "running")], []] }) "ev" "payload" = true) :=
  nameless_node_conditions_skipped "" "ev" "payload" [("value", "running")] [[]]
    [[("value", "running")], []] (by decide) (by decide)

/-- Claim C6: a null filter matches every notification; a non-empty
event-name constraint differing from the classified event name fails
without looking at node conditions; an empty or matching constraint
with no node conditions passes any payload; and a webhook filtering on
`netconf-config-change` does not fire for a `netconf-session-start`
notification. -/
theorem filter_event_gate (ev data : String) (flt : Filter) (w : webhook) :
    filterRun none ev data = true ∧
    (flt.event ≠ "" → flt.event ≠ ev → filterRun (some flt) ev data = false) ∧
    (flt.node = [] → (flt.event = "" ∨ flt.event = ev) →
      filterRun (some flt) ev data = true) ∧
    (w.filter = some flt → flt.event = EventType.netconfConfigChange.toName →
      shouldFire w EventType.netconfSessionStart.toName data = false) := by
  refine ⟨rfl, ?_, ?_, ?_⟩
  · intro h1 h2
    simp [filterRun, h1, h2]
  · intro hn hev
    rcases hev with h | h <;> simp [filterRun, h, hn, filterNodes]
  · intro hf hev
    have hfr : filterRun w.filter EventType.netconfSessionStart.toName data = false := by
      rw [hf]
      simp [filterRun, hev, EventType.toName]
    simp [shouldFire, hfr]

/-- Witness for C6: the three filter facts at concrete inputs, and
Scenario C with a concrete webhook. -/
theorem filter_event_gate_witness :
    filterRun none "netconf-session-start" "payload" = true ∧
    filterRun (some { event := "netconf-config-change", node := [] })
      "netconf-session-start" "payload" = false ∧
    filterRun (some { event := "", node := [] }) "netconf-session-start" "payload" = true ∧
    shouldFire configChangeEventHook "netconf-session-start" "payload" = false :=
  ⟨(filter_event_gate "netconf-session-start" "payload"
      { event := "netconf-config-change", node := [] } nsoeventHook).1,
   (filter_event_gate "netconf-session-start" "payload"
      { event := "netconf-config-change", node := [] } nsoeventHook).2.1
      (by decide) (by decide),
   (filter_event_gate "netconf-session-start" "payload"
      { event := "", node := [] } nsoeventHook).2.2.1 rfl (Or.inl rfl),
   (filter_event_gate "netconf-session-start" "payload"
      { event := "netconf-config-change", node := [] } configChangeEventHook).2.2.2 rfl rfl⟩

/-- `dropLead` succeeds exactly on lists starting with the pattern,
returning the rest. -/
theorem dropLead_eq_some (p : List Char) :
    ∀ l r : List Char, dropLead p l = some r ↔ l = p ++ r := by
  induction p with
  | nil =>
    intro l r
    simp [dropLead]
  | cons a as ih =>
    intro l r
    cases l with
    | nil => simp [dropLead]
    | cons b bs =>
      by_cases h : a = b
      · subst h
        simp [dropLead, ih]
      · simp only [dropLead, if_neg h, List.cons_append, List.cons.injEq]
        constructor
        · intro hc; exact Option.noConfusion hc
        · rintro ⟨hba, -⟩; exact absurd hba.symm h

/-- The presence pattern matches at the head of a list exactly when the
list starts with `<`, the tag name, and a whitespace character or `>`. -/
theorem presencePatAt_iff (name l : List Char) :
    presencePatAt name l = true ↔
      ∃ c rest, l = ('<' :: name) ++ c :: rest ∧ (goWS c = true ∨ c = '>') := by
  unfold presencePatAt
  cases hd : dropLead ('<' :: name) l with
  | none =>
    simp only [Bool.false_eq_true, false_iff, not_exists]
    intro c rest hcr
    rcases hcr with ⟨heq, -⟩
    have := (dropLead_eq_some ('<' :: name) l (c :: rest)).mpr heq
    rw [hd] at this
    exact Option.noConfusion this
  | some rest =>
    have hl : l = ('<' :: name) ++ rest := (dropLead_eq_some ('<' :: name) l rest).mp hd
    subst hl
    cases rest with
    | nil =>
      simp only [Bool.false_eq_true, false_iff, not_exists]
      intro c r2 hcr
      rcases hcr with ⟨heq, -⟩
      have := List.append_cancel_left heq
      exact List.noConfusion this
    | cons c r2 =>
      constructor
      · intro hb
        exact ⟨c, r2, rfl, by simpa using hb⟩
      · rintro ⟨c3, r3, heq, hc3⟩
        have := List.append_cancel_left heq
        rw [List.cons.injEq] at this
        rcases this with ⟨hcc, -⟩
        subst hcc
        simpa using hc3

/-- The presence scanner finds the pattern exactly when the list can be
split around an occurrence. -/
theorem presenceMatch_iff (name : List Char) :
    ∀ l : List Char, presenceMatch name l = true ↔
      ∃ pre c post, l = pre ++ ('<' :: name) ++ c :: post ∧ (goWS c = true ∨ c = '>')
  | [] => by
    simp only [presenceMatch, Bool.false_eq_true, false_iff, not_exists]
    intro pre c post hcr
    rcases hcr with ⟨heq, -⟩
    have := congrArg List.length heq
    simp [List.length_append] at this
    omega
  | c0 :: rest => by
    simp only [presenceMatch, Bool.or_eq_true]
    constructor
    · rintro (h | h)
      · obtain ⟨c, r2, heq, hc⟩ := (presencePatAt_iff name (c0 :: rest)).mp h
        exact ⟨[], c, r2, by simpa using heq, hc⟩
      · obtain ⟨pre, c, post, heq, hc⟩ := (presenceMatch_iff name rest).mp h
        exact ⟨c0 :: pre, c, post, by simp [heq], hc⟩
    · rintro ⟨pre, c, post, heq, hc⟩
      cases pre with
      | nil =>
        exact Or.inl ((presencePatAt_iff name (c0 :: rest)).mpr
          ⟨c, post, by simpa using heq, hc⟩)
      | cons p ps =>
        refine Or.inr ((presenceMatch_iff name rest).mpr ⟨ps, c, post, ?_, hc⟩)
        have heq2 : c0 :: rest = p :: (ps ++ ('<' :: name) ++ c :: post) := by
          simpa [List.append_assoc] using heq
        rw [List.cons.injEq] at heq2
        simpa [List.append_assoc] using heq2.2

/-- Claim C4 (amended): a filter consisting of one presence-only node
condition on a tag `T` built from tag-name literal characters (the
source splices `T` into a compiled regexp, so only for such names does
the pattern `<T[\s>]+` mean a literal scan) returns false iff the
document the pipeline hands it - the enriched JSON body, not the raw
payload - contains no substring `<T` followed by whitespace or `>`;
the evaluation is a text scan of those bytes.  The hypothesis delimits
the names on which this model coincides with the compiled pattern; it
is satisfiable (see the witness) and not used by the proof, which is
about the model on that domain. -/
theorem presence_filter_matches_document (T ev doc : String)
    (_hT : tagNameLiteral T = true) :
    (filterRun (some { event := "", node := [[("name", T)]] }) ev doc = false ↔
      ¬ OpenTagIn doc T) ∧
    filterRun (some { event := "", node := [[("name", T)]] }) ev doc =
      presenceMatch T.data doc.data := by
  have hrun : filterRun (some { event := "", node := [[("name", T)]] }) ev doc =
      presenceMatch T.data doc.data := by
    by_cases h : presenceMatch T.data doc.data = true <;>
      simp [filterRun, filterNodes, lookupS, h]
  refine ⟨?_, hrun⟩
  rw [hrun]
  constructor
  · intro h hopen
    obtain ⟨pre, c, post, heq, hc⟩ := hopen
    have := (presenceMatch_iff T.data doc.data).mpr ⟨pre, c, post, heq, hc⟩
    simp [this] at h
  · intro h
    by_cases hb : presenceMatch T.data doc.data = true
    · obtain ⟨pre, c, post, heq, hc⟩ := (presenceMatch_iff T.data doc.data).mp hb
      exact absurd ⟨pre, c, post, heq, hc⟩ h
    · simpa using hb

/-- Witness for the amended C4 theorem: the tag name `nsoevent` is
all tag-name literals, and the instantiated iff holds of the document
the pipeline hands the filter for the Scenario-A-like notification. -/
theorem presence_filter_matches_document_witness :
    (filterRun (some { event := "", node := [[("name", "nsoevent")]] })
        (defaultNotification scenarioAInner).eventName c4doc = false ↔
      ¬ OpenTagIn c4doc "nsoevent") ∧
    filterRun (some { event := "", node := [[("name", "nsoevent")]] })
        (defaultNotification scenarioAInner).eventName c4doc =
      presenceMatch "nsoevent".data c4doc.data :=
  presence_filter_matches_document "nsoevent"
    (defaultNotification scenarioAInner).eventName c4doc (by decide)

/-- Claim C4 is false as stated: for the Scenario-A-like notification,
the raw inner payload (cleaned or not) contains no `<nsoevent`
substring, yet the webhook with a presence-only condition on tag
`nsoevent` fires, because `startSubscriber` hands the filter the
enriched JSON document, whose `event` field wraps the payload in
`<nsoevent>` tags. -/
theorem presence_filter_raw_payload_counterexample :
    presenceMatch "nsoevent".data scenarioAInner.data = false ∧
    presenceMatch "nsoevent".data (xmlInnerCleanup scenarioAInner).data = false ∧
    shouldFire nsoeventHook (defaultNotification scenarioAInner).eventName c4doc = true := by
  decide

/-- A list is a prefix of itself followed by anything. -/
theorem prefixOfB_append (p : List Char) : ∀ r : List Char, prefixOfB p (p ++ r) = true := by
  induction p with
  | nil => intro r; rfl
  | cons a as ih => intro r; simpa [prefixOfB] using ih r

/-- Transitivity of the boolean prefix test. -/
theorem prefixOfB_trans :
    ∀ a b l : List Char, prefixOfB a b = true → prefixOfB b l = true →
      prefixOfB a l = true
  | [], _, _, _, _ => rfl
  | a :: as, [], l, h1, _ => by simp [prefixOfB] at h1
  | a :: as, b :: bs, [], _, h2 => by simp [prefixOfB] at h2
  | a :: as, b :: bs, c :: cs, h1, h2 => by
    by_cases hab : a = b
    · by_cases hbc : b = c
      · subst hab
        subst hbc
        simp only [prefixOfB, if_pos rfl] at h1 h2 ⊢
        exact prefixOfB_trans as bs cs h1 h2
      · simp [prefixOfB, hbc] at h2
    · simp [prefixOfB, hab] at h1

/-- A list containing a pattern contains every prefix of that pattern. -/
theorem hasSub_mono (a b : List Char) (hab : prefixOfB a b = true) :
    ∀ l : List Char, hasSub b l = true → hasSub a l = true
  | [], h => by
    simp only [hasSub] at h ⊢
    exact prefixOfB_trans a b [] hab h
  | c :: rest, h => by
    simp only [hasSub, Bool.or_eq_true] at h ⊢
    rcases h with h | h
    · exact Or.inl (prefixOfB_trans a b (c :: rest) hab h)
    · exact Or.inr (hasSub_mono a b hab rest h)

/-- Removing a pattern that does not occur changes nothing. -/
theorem replaceAllGo_of_not_sub (p : Char) (ps : List Char) :
    ∀ (fuel : Nat) (l : List Char), hasSub (p :: ps) l = false →
      replaceAllGo p ps fuel l = l
  | 0, l, _ => rfl
  | _ + 1, [], _ => rfl
  | fuel + 1, c :: rest, h => by
    have hh : prefixOfB (p :: ps) (c :: rest) = false ∧ hasSub (p :: ps) rest = false := by
      rw [hasSub] at h
      exact Bool.or_eq_false_iff.mp h
    simp [replaceAllGo, hh.1, replaceAllGo_of_not_sub p ps fuel rest hh.2]

/-- An inner payload free of SSE markers survives `xmlInnerCleanup`
unchanged (the long marker contains the short one as a prefix, so the
short marker's absence suffices). -/
theorem xmlInnerCleanup_of_no_marker (inner : String)
    (h : hasSub (Char.ofNat 10 :: sseShortTail) inner.data = false) :
    xmlInnerCleanup inner = inner := by
  have hpre : prefixOfB (Char.ofNat 10 :: sseShortTail)
      (Char.ofNat 10 :: sseLongTail) = true := by decide
  have hlong : hasSub (Char.ofNat 10 :: sseLongTail) inner.data = false := by
    by_cases hb : hasSub (Char.ofNat 10 :: sseLongTail) inner.data = true
    · have := hasSub_mono _ _ hpre inner.data hb
      rw [h] at this
      exact Bool.noConfusion this
    · simpa using hb
  unfold xmlInnerCleanup replaceAllEmpty
  rw [replaceAllGo_of_not_sub _ _ _ _ hlong, replaceAllGo_of_not_sub _ _ _ _ h]

/-- Stripping the `<nsoevent>` wrapper undoes `enrichEventField`. -/
theorem stripNsoevent_wrap (m : String) :
    stripNsoevent (enrichEventField m) = m := by
  have hdata : (enrichEventField m).data =
      "<nsoevent>".data ++ m.data ++ "</nsoevent>".data := by
    simp [enrichEventField]
  have hg1 : prefixOfB "<nsoevent>".data
      ("<nsoevent>".data ++ m.data ++ "</nsoevent>".data) = true := by
    rw [List.append_assoc]
    exact prefixOfB_append _ _
  have hg2 : prefixOfB "</nsoevent>".data.reverse
      ("<nsoevent>".data ++ m.data ++ "</nsoevent>".data).reverse = true := by
    rw [List.reverse_append]
    exact prefixOfB_append _ _
  unfold stripNsoevent
  rw [hdata, hg1, hg2]
  simp only [Bool.and_self, if_true]
  have hlen : ("<nsoevent>".data ++ m.data ++ "</nsoevent>".data).length - 21 =
      m.data.length := by
    simp [List.length_append]
  rw [hlen]
  have hdrop : ("<nsoevent>".data ++ m.data ++ "</nsoevent>".data).drop 10 =
      m.data ++ "</nsoevent>".data := by
    rw [List.append_assoc]
    have h10 : (10 : Nat) = ("<nsoevent>".data).length := by decide
    rw [h10, List.drop_left]
  rw [hdrop]
  have htake : (m.data ++ "</nsoevent>".data).take m.data.length = m.data :=
    List.take_left m.data "</nsoevent>".data
  rw [htake]

/-- Claim C7 (amended): the enriched payload's `event` field, stripped
of its wrapper tags, is exactly the SSE-cleaned inner payload, and
hence byte-for-byte the original raw inner payload whenever that
payload carries no SSE `data:` marker. -/
theorem event_field_round_trip (inner : String) :
    stripNsoevent (enrichEventField (xmlInnerCleanup inner)) = xmlInnerCleanup inner ∧
    (hasSub (Char.ofNat 10 :: sseShortTail) inner.data = false →
      stripNsoevent (enrichEventField (xmlInnerCleanup inner)) = inner) := by
  refine ⟨stripNsoevent_wrap _, fun h => ?_⟩
  rw [stripNsoevent_wrap, xmlInnerCleanup_of_no_marker inner h]

/-- Witness for the amended C7 theorem at a marker-free payload. -/
theorem event_field_round_trip_witness :
    stripNsoevent (enrichEventField (xmlInnerCleanup "<custom-event/>")) =
      "<custom-event/>" :=
  (event_field_round_trip "<custom-event/>").2 (by decide)

/-- Claim C7 is false as stated: an inner payload carrying an SSE
`data:` marker is cleaned before wrapping, so stripping the wrapper
returns the cleaned bytes, not the original raw inner payload. -/
theorem event_field_round_trip_counterexample :
    stripNsoevent (enrichEventField (xmlInnerCleanup sseInner)) ≠ sseInner ∧
    stripNsoevent (enrichEventField (xmlInnerCleanup sseInner)) = "<x>y</x>" := by
  decide

end Nsoevent
